import Mathlib

/-!
# HealthLens AI — verification of the response-parsing, citation-extraction,
history-cap and error-handling logic

Shallow embedding of the TypeScript sources:
* `services/geminiService.ts` — `analyzeSymptoms`, `findNearbyDoctors`
* `App.tsx` — `handleAnalyze` (bounded history)
* `components/DoctorFinder.tsx` — `handleFindDoctors` (error messages)
* `types.ts` — record types

The network call itself is opaque; it is modelled as an `Except`-valued
outcome carrying the model text and grounding chunks on success.
JavaScript strings are modelled as `List Char` / `String`; the regexes
`/CONFIDENCE_SCORE:\s*(\d+)/` and `/CONFIDENCE_LABEL:\s*(\w+)/` are
modelled by an explicit leftmost-match scanner (`scanFor`).
-/

namespace HealthLens

/-- JS `\w` character class: `[A-Za-z0-9_]`. -/
def isWordChar (c : Char) : Bool :=
  c.isAlphanum || c == '_'

/-- Leading-whitespace removal (JS `String.prototype.trim`, left part). -/
def trimLeftChars (l : List Char) : List Char :=
  l.dropWhile Char.isWhitespace

/-- JS `String.prototype.trim` on a character list: drop leading and
trailing whitespace. -/
def charTrim (l : List Char) : List Char :=
  ((trimLeftChars l).reverse.dropWhile Char.isWhitespace).reverse

/-- JS `fullText.split('\n')` on a character list.  Always returns a
nonempty list; `[] ↦ [[]]` mirrors `"".split('\n') = [""]`. -/
def splitNl : List Char → List (List Char)
  | [] => [[]]
  | c :: t =>
    if c = '\n' then [] :: splitNl t
    else
      match splitNl t with
      | h :: r => (c :: h) :: r
      | [] => [[c]]

/-- JS `lines.join('\n')` on character lists. -/
def joinNl : List (List Char) → List Char
  | [] => []
  | [x] => x
  | x :: y :: r => x ++ '\n' :: joinNl (y :: r)

/-- Match `pat` against the front of `l`; on success return the remainder
of `l` after the pattern. -/
def stripSeq : List Char → List Char → Option (List Char)
  | [], l => some l
  | _ :: _, [] => none
  | p :: ps, c :: cs => if p == c then stripSeq ps cs else none

/-- JS `String.prototype.includes`: does `pat` occur as a contiguous run
anywhere in the text? -/
def includesSeq (pat : List Char) : List Char → Bool
  | [] => (stripSeq pat []).isSome
  | c :: t => (stripSeq pat (c :: t)).isSome || includesSeq pat t

/-- One regex match attempt at the current position: the literal `marker`,
then `\s*` (greedy), then a nonempty capture of characters in class
`cls`.  Returns the capture. -/
def tryAt (marker : List Char) (cls : Char → Bool) (l : List Char) :
    Option (List Char) :=
  match stripSeq marker l with
  | none => none
  | some rest =>
    let cap := (rest.dropWhile Char.isWhitespace).takeWhile cls
    if cap.isEmpty then none else some cap

/-- Leftmost regex match of `marker ++ \s* ++ cls+` over the whole text,
as in JS `text.match(/MARKER\s*(CLS+)/)`: try every start position left
to right and return the first capture. -/
def scanFor (marker : List Char) (cls : Char → Bool) : List Char → Option (List Char)
  | [] => none
  | c :: t =>
    match tryAt marker cls (c :: t) with
    | some cap => some cap
    | none => scanFor marker cls t

/-- JS `parseInt(digits, 10)` on a string of decimal digits. -/
def digitsToNat (ds : List Char) : Nat :=
  ds.foldl (fun a c => 10 * a + (c.toNat - 48)) 0

/-- The literal searched for by `firstLine.includes('CONFIDENCE_SCORE:')`
and by the score regex. -/
def scoreMarker : List Char := "CONFIDENCE_SCORE:".data

/-- The literal of the label regex `/CONFIDENCE_LABEL:\s*(\w+)/`. -/
def labelMarker : List Char := "CONFIDENCE_LABEL:".data

/-- Default label `"Low"` as a character list. -/
def lowLabel : List Char := "Low".data

/-- The confidence-parsing block of `analyzeSymptoms` (geminiService.ts):

```js
let confidence = { score: 0, label: "Low" };
let content = fullText;
const lines = fullText.split('\n');
const firstLine = lines[0].trim();
if (firstLine.includes('CONFIDENCE_SCORE:')) {
  const scoreMatch = firstLine.match(/CONFIDENCE_SCORE:\s*(\d+)/);
  const labelMatch = firstLine.match(/CONFIDENCE_LABEL:\s*(\w+)/);
  if (scoreMatch && labelMatch) {
    confidence = { score: parseInt(scoreMatch[1], 10), label: labelMatch[1] };
    content = lines.slice(1).join('\n').trim();
  }
}
```

Returns `((score, label), content)` over character lists. -/
def parseFullChars (full : List Char) : (Nat × List Char) × List Char :=
  let lines := splitNl full
  let firstLine := charTrim (lines.headD [])
  if includesSeq scoreMarker firstLine then
    match scanFor scoreMarker Char.isDigit firstLine,
          scanFor labelMarker isWordChar firstLine with
    | some ds, some lab => ((digitsToNat ds, lab), charTrim (joinNl (lines.drop 1)))
    | _, _ => ((0, lowLabel), full)
  else ((0, lowLabel), full)

/-- `types.ts` `AnalysisResult.confidence`. -/
structure Confidence where
  score : Nat
  label : String
deriving DecidableEq, Repr

/-- String-level wrapper of `parseFullChars`: confidence plus displayed
content. -/
def parseResponseText (s : String) : Confidence × String :=
  let r := parseFullChars s.data
  (⟨r.1.1, String.mk r.1.2⟩, String.mk r.2)

/-- `types.ts` `GroundingSource`. -/
structure GroundingSource where
  title : String
  uri : String
deriving DecidableEq, Repr

/-- `types.ts` `MapSource` (`address` optional). -/
structure MapSource where
  title : String
  uri : String
  address : Option String
deriving DecidableEq, Repr

/-- A `web` sub-object of a grounding chunk; fields may be absent. -/
structure WebInfo where
  title : Option String
  uri : Option String
deriving DecidableEq, Repr

/-- A `maps` sub-object of a grounding chunk; fields may be absent. -/
structure MapsInfo where
  title : Option String
  uri : Option String
  address : Option String
deriving DecidableEq, Repr

/-- One entry of `groundingMetadata.groundingChunks`. -/
structure Chunk where
  maps : Option MapsInfo
  web : Option WebInfo
deriving DecidableEq, Repr

/-- JS truthiness of a possibly-absent string field: present and
nonempty. -/
def truthyStr : Option String → Bool
  | none => false
  | some s => !(s == "")

/-- The `else if (chunk.web && chunk.web.uri && chunk.web.title)` branch of
the `forEach` in `findNearbyDoctors`: a web citation carries no address. -/
def webFallback (c : Chunk) : Option MapSource :=
  match c.web with
  | some w =>
    if truthyStr w.uri && truthyStr w.title then
      some ⟨w.title.getD "", w.uri.getD "", none⟩
    else none
  | none => none

/-- The per-chunk case analysis of the `forEach` in `findNearbyDoctors`:
`maps` entries (title, uri truthy) win and carry the `address` field
through; otherwise the chunk falls back to its `web` entry, with no
address. -/
def chunkToMapSource (c : Chunk) : Option MapSource :=
  match c.maps with
  | some m =>
    if truthyStr m.uri && truthyStr m.title then
      some ⟨m.title.getD "", m.uri.getD "", m.address⟩
    else webFallback c
  | none => webFallback c

/-- JS `array.push(x)` guarded on the element being produced. -/
def pushSource {β : Type} (acc : List β) (s : Option β) : List β :=
  match s with
  | some x => acc ++ [x]
  | none => acc

/-- The `forEach ... push` loop of `findNearbyDoctors` building
`mapSources`. -/
def extractMapSources (chunks : List Chunk) : List MapSource :=
  chunks.foldl (fun acc c => pushSource acc (chunkToMapSource c)) []

/-- The per-chunk case of the `forEach` in `analyzeSymptoms` building
`sources` (web citations only). -/
def chunkToWebSource (c : Chunk) : Option GroundingSource :=
  match c.web with
  | some w =>
    if truthyStr w.uri && truthyStr w.title then
      some ⟨w.title.getD "", w.uri.getD "", ⟩
    else none
  | none => none

/-- The `forEach ... push` loop of `analyzeSymptoms` building `sources`. -/
def extractWebSources (chunks : List Chunk) : List GroundingSource :=
  chunks.foldl (fun acc c => pushSource acc (chunkToWebSource c)) []

/-- `types.ts` `AnalysisResult`. -/
structure AnalysisResult where
  content : String
  confidence : Confidence
  language : String
  sources : List GroundingSource
deriving DecidableEq, Repr

/-- `types.ts` `DoctorSearchResult`. -/
structure DoctorSearchResult where
  content : String
  mapSources : List MapSource
deriving DecidableEq, Repr

/-- `types.ts` `HistoryItem`. -/
structure HistoryItem where
  id : String
  symptoms : String
  timestamp : Nat
  result : AnalysisResult
deriving DecidableEq, Repr

/-- A model response as seen by the service code: `response.text`
(possibly absent) and the grounding chunks (`[]` models an absent
list). -/
structure ModelResponse where
  text : Option String
  chunks : List Chunk
deriving DecidableEq, Repr

/-- `"Unable to generate analysis. Please try again."` — substituted by
`analyzeSymptoms` when `response.text` is falsy. -/
def analysisFallbackText : String := "Unable to generate analysis. Please try again."

/-- The single message thrown by the `catch` of `analyzeSymptoms`. -/
def analyzeErrMsg : String :=
  "Failed to analyze symptoms. Please check your connection or try a different image."

/-- `analyzeSymptoms` (geminiService.ts): the request outcome is opaque;
on success the text (with falsy fallback) is parsed for confidence and
web citations are extracted; on any failure the one generic error is
thrown. -/
def analyzeSymptoms (language : String) (outcome : Except String ModelResponse) :
    Except String AnalysisResult :=
  match outcome with
  | .error _ => .error analyzeErrMsg
  | .ok resp =>
    let full : String :=
      match resp.text with
      | none => analysisFallbackText
      | some s => if s = "" then analysisFallbackText else s
    let pc := parseResponseText full
    .ok { content := pc.2
          confidence := pc.1
          language := language
          sources := extractWebSources resp.chunks }

/-- Fallback body text of `findNearbyDoctors` when `response.text` is
falsy. -/
def doctorsFallbackText : String := "Could not find specific doctor information."

/-- The single message thrown by the `catch` of `findNearbyDoctors`. -/
def doctorsErrMsg : String :=
  "Failed to locate nearby doctors. Please ensure location services are enabled."

/-- `findNearbyDoctors` (geminiService.ts): on success returns the text
plus extracted map sources; any failure is rethrown as the one generic
message. -/
def findNearbyDoctors (outcome : Except String ModelResponse) :
    Except String DoctorSearchResult :=
  match outcome with
  | .error _ => .error doctorsErrMsg
  | .ok resp =>
    .ok { content :=
            match resp.text with
            | none => doctorsFallbackText
            | some s => if s = "" then doctorsFallbackText else s
          mapSources := extractMapSources resp.chunks }

/-- Error-callback message mapping of `handleFindDoctors`
(DoctorFinder.tsx): geolocation error codes 1/2/3 map to fixed messages,
anything else to the callback default. -/
def geoErrorMessage (code : Nat) : String :=
  if code = 1 then "Location permission denied. Please allow access."
  else if code = 2 then "Location unavailable. Please check your connection."
  else if code = 3 then "Location request timed out."
  else "Unable to retrieve your location."

/-- The ways the doctor-lookup flow can unfold: geolocation unsupported,
geolocation error with a code, or a position obtained followed by the
model request (whose raw outcome is carried). -/
inductive DoctorFlowEvent where
  | unsupported
  | geoError (code : Nat)
  | positioned (modelOutcome : Except String ModelResponse)

/-- The error state set by `handleFindDoctors` (DoctorFinder.tsx):
`none` when the lookup succeeds, otherwise the user-facing message. -/
def handleFindDoctors (ev : DoctorFlowEvent) : Option String :=
  match ev with
  | .unsupported => some "Geolocation is not supported by your browser"
  | .geoError c => some (geoErrorMessage c)
  | .positioned o =>
    match findNearbyDoctors o with
    | .error m => some (if m = "" then "Failed to find doctors nearby." else m)
    | .ok _ => none

/-- `App.tsx` `handleAnalyze` history update:
`[newHistoryItem, ...history].slice(0, 10)`. -/
def addToHistory (item : HistoryItem) (history : List HistoryItem) : List HistoryItem :=
  (item :: history).take 10

/-- A sequence of successful analyses starting from the empty history,
oldest first. -/
def runHistory (items : List HistoryItem) : List HistoryItem :=
  items.foldl (fun h i => addToHistory i h) []

/-! ## Character-class facts -/

theorem ws_cases {c : Char} (h : c.isWhitespace = true) :
    c = ' ' ∨ c = '\t' ∨ c = '\r' ∨ c = '\n' := by
  simp [Char.isWhitespace] at h; tauto

theorem digit_not_ws {c : Char} (h : c.isDigit = true) : c.isWhitespace = false := by
  cases hw : c.isWhitespace with
  | false => rfl
  | true => rcases ws_cases hw with rfl | rfl | rfl | rfl <;> simp at h

theorem wordChar_not_ws {c : Char} (h : isWordChar c = true) : c.isWhitespace = false := by
  cases hw : c.isWhitespace with
  | false => rfl
  | true => rcases ws_cases hw with rfl | rfl | rfl | rfl <;> simp [isWordChar] at h

theorem digit_ne_nl {c : Char} (h : c.isDigit = true) : c ≠ '\n' := by
  rintro rfl; simp at h

theorem wordChar_ne_nl {c : Char} (h : isWordChar c = true) : c ≠ '\n' := by
  rintro rfl; simp [isWordChar] at h

theorem beq_false_of_isDigit {m c : Char} (hm : m.isDigit = false) (h : c.isDigit = true) :
    (m == c) = false := by
  cases hb : (m == c) with
  | false => rfl
  | true => rw [← eq_of_beq hb] at h; rw [h] at hm; cases hm

/-! ## `splitNl` / `joinNl` -/

theorem splitNl_ne_nil (l : List Char) : splitNl l ≠ [] := by
  induction l with
  | nil => simp [splitNl]
  | cons c t ih =>
    by_cases h : c = '\n'
    · simp [splitNl, h]
    · simp only [splitNl, if_neg h]
      cases hs : splitNl t with
      | nil => exact absurd hs ih
      | cons a b => simp

theorem joinNl_splitNl (l : List Char) : joinNl (splitNl l) = l := by
  induction l with
  | nil => rfl
  | cons c t ih =>
    by_cases h : c = '\n'
    · subst h
      simp only [splitNl, if_pos rfl]
      cases hs : splitNl t with
      | nil => exact absurd hs (splitNl_ne_nil t)
      | cons a b => rw [hs] at ih; simpa [joinNl] using ih
    · simp only [splitNl, if_neg h]
      cases hs : splitNl t with
      | nil => exact absurd hs (splitNl_ne_nil t)
      | cons a b =>
        rw [hs] at ih
        cases b with
        | nil => simpa [joinNl] using ih
        | cons b0 bs => simpa [joinNl] using ih

theorem splitNl_append_nl {a : List Char} (b : List Char) (h : ∀ c ∈ a, c ≠ '\n') :
    splitNl (a ++ '\n' :: b) = a :: splitNl b := by
  induction a with
  | nil => simp [splitNl]
  | cons c t ih =>
    have hc : c ≠ '\n' := h c (by simp)
    have ih2 := ih (fun x hx => h x (by simp [hx]))
    rw [List.cons_append]
    simp only [splitNl, if_neg hc]
    rw [ih2]

/-! ## `charTrim` -/

theorem charTrim_infix (l : List Char) : charTrim l <:+: l := by
  have h1 : trimLeftChars l <:+ l := List.dropWhile_suffix _
  have h2 : (trimLeftChars l).reverse.dropWhile Char.isWhitespace <:+
      (trimLeftChars l).reverse := List.dropWhile_suffix _
  have h3 : ((trimLeftChars l).reverse.dropWhile Char.isWhitespace).reverse <+:
      trimLeftChars l := List.reverse_suffix.mp (by simpa using h2)
  exact (h3.isInfix).trans h1.isInfix

theorem charTrim_eq_self {l : List Char}
    (hh : ∀ a, l.head? = some a → a.isWhitespace = false)
    (hl : ∀ a, l.getLast? = some a → a.isWhitespace = false) :
    charTrim l = l := by
  cases l with
  | nil => rfl
  | cons c t =>
    have hc : c.isWhitespace = false := hh c rfl
    have h1 : trimLeftChars (c :: t) = c :: t := by
      simp [trimLeftChars, List.dropWhile_cons, hc]
    cases hr : (c :: t).reverse with
    | nil => exact absurd (congrArg List.length hr) (by simp)
    | cons r rs =>
      have hrl : (c :: t).getLast? = some r := by
        rw [← List.head?_reverse, hr]; rfl
      have hrw : r.isWhitespace = false := hl r hrl
      have step : charTrim (c :: t) =
          ((c :: t).reverse.dropWhile Char.isWhitespace).reverse := by
        rw [charTrim, h1]
      rw [step, hr, List.dropWhile_cons, hrw]
      simp [← hr]

/-! ## `stripSeq` / `includesSeq` -/

theorem stripSeq_append (p r : List Char) : stripSeq p (p ++ r) = some r := by
  induction p with
  | nil => rfl
  | cons a t ih => simp [stripSeq, ih]

theorem stripSeq_isSome_iff {p l : List Char} :
    (stripSeq p l).isSome = true ↔ p <+: l := by
  induction p generalizing l with
  | nil => simp [stripSeq]
  | cons a t ih =>
    cases l with
    | nil => simp [stripSeq]
    | cons c cs =>
      by_cases h : a = c
      · subst h
        have step : stripSeq (a :: t) (a :: cs) = stripSeq t cs := by
          simp [stripSeq]
        rw [step, ih]
        exact ⟨fun hp => List.cons_prefix_cons.mpr ⟨rfl, hp⟩,
          fun hp => ( List.prefix_cons_inj a).mp hp⟩
      · have step : stripSeq (a :: t) (c :: cs) = none := by
          simp [stripSeq, h]
        rw [step]
        simp only [Option.isSome_none, Bool.false_eq_true, false_iff]
        intro hp
        exact absurd ( List.cons_prefix_cons.mp hp).1 h

theorem includesSeq_iff_infix {p l : List Char} :
    includesSeq p l = true ↔ p <:+: l := by
  induction l with
  | nil =>
    simp only [includesSeq, stripSeq_isSome_iff, List.infix_nil]
    constructor
    · intro h; simpa using List.prefix_nil.mp h
    · rintro rfl; simp
  | cons c t ih =>
    simp only [includesSeq, Bool.or_eq_true, stripSeq_isSome_iff, ih,
      List.infix_cons_iff]

theorem includesSeq_of_trim {p l : List Char}
    (h : includesSeq p (charTrim l) = true) : includesSeq p l = true :=
  includesSeq_iff_infix.mpr (( includesSeq_iff_infix.mp h).trans ( charTrim_infix l))

/-! ## `scanFor` -/

theorem scanFor_cons (m : List Char) (cls : Char → Bool) (c : Char) (t : List Char) :
    scanFor m cls (c :: t) =
      match tryAt m cls (c :: t) with
      | some cap => some cap
      | none => scanFor m cls t := rfl

theorem scanFor_skip (m : List Char) (cls : Char → Bool) {c : Char} {t : List Char}
    (h : tryAt m cls (c :: t) = none) : scanFor m cls (c :: t) = scanFor m cls t := by
  rw [scanFor_cons, h]

theorem tryAt_some_props {m : List Char} {cls : Char → Bool} {l cap : List Char}
    (h : tryAt m cls l = some cap) :
    cap ≠ [] ∧ (∀ c ∈ cap, cls c = true) ∧ (stripSeq m l).isSome = true := by
  unfold tryAt at h
  cases hs : stripSeq m l with
  | none => rw [hs] at h; cases h
  | some rest =>
    rw [hs] at h
    simp only at h
    split at h
    · cases h
    · rename_i hne
      injection h with h
      subst h
      refine ⟨by simpa using hne, fun c hc => List.mem_takeWhile_imp hc, by simp⟩

theorem scanFor_some_props {m : List Char} {cls : Char → Bool} {l cap : List Char}
    (h : scanFor m cls l = some cap) :
    cap ≠ [] ∧ (∀ c ∈ cap, cls c = true) ∧ includesSeq m l = true := by
  induction l with
  | nil => cases h
  | cons c t ih =>
    rw [scanFor_cons] at h
    cases ht : tryAt m cls (c :: t) with
    | some cap2 =>
      rw [ht] at h
      injection h with h
      subst h
      obtain ⟨h1, h2, h3⟩ := tryAt_some_props ht
      exact ⟨h1, h2, by simp [includesSeq, h3]⟩
    | none =>
      rw [ht] at h
      simp only at h
      obtain ⟨h1, h2, h3⟩ := ih h
      exact ⟨h1, h2, by simp [includesSeq, h3]⟩

theorem scanFor_skip_all (m0 : Char) (mt : List Char) (cls : Char → Bool)
    (xs r : List Char) (h : ∀ c ∈ xs, (m0 == c) = false) :
    scanFor (m0 :: mt) cls (xs ++ r) = scanFor (m0 :: mt) cls r := by
  induction xs with
  | nil => rfl
  | cons x xt ih =>
    have hx : (m0 == x) = false := h x (by simp)
    have htry : tryAt (m0 :: mt) cls (x :: (xt ++ r)) = none := by
      unfold tryAt
      simp [stripSeq, hx]
    rw [List.cons_append, scanFor_skip _ _ htry,
      ih (fun c hc => h c (by simp [hc]))]

theorem tryAt_front (m0 : Char) (mt : List Char) (cls : Char → Bool)
    (ws : List Char) (d : Char) (rest : List Char)
    (hws : ∀ c ∈ ws, c.isWhitespace = true)
    (hd : cls d = true) (hdw : d.isWhitespace = false) :
    tryAt (m0 :: mt) cls ((m0 :: mt) ++ (ws ++ d :: rest)) =
      some (d :: rest.takeWhile cls) := by
  unfold tryAt
  rw [stripSeq_append]
  have h1 : List.dropWhile Char.isWhitespace (ws ++ d :: rest) = d :: rest := by
    rw [List.dropWhile_append_of_pos hws, List.dropWhile_cons, hdw]
    simp
  have h2 : List.takeWhile cls (d :: rest) = d :: List.takeWhile cls rest := by
    rw [List.takeWhile_cons, hd]
    simp
  simp [h1, h2]

theorem scanFor_front (m0 : Char) (mt : List Char) (cls : Char → Bool)
    (ws : List Char) (d : Char) (rest : List Char)
    (hws : ∀ c ∈ ws, c.isWhitespace = true)
    (hd : cls d = true) (hdw : d.isWhitespace = false) :
    scanFor (m0 :: mt) cls ((m0 :: mt) ++ (ws ++ d :: rest)) =
      some (d :: rest.takeWhile cls) := by
  rw [List.cons_append, scanFor_cons, ← List.cons_append,
    tryAt_front m0 mt cls ws d rest hws hd hdw]

theorem scanFor_isSome_of_decomp (m : List Char) (m0 : Char) (mt : List Char)
    (d : Char) (hm : m = m0 :: mt) (cls : Char → Bool)
    (pre ws rest : List Char)
    (hws : ∀ c ∈ ws, c.isWhitespace = true)
    (hd : cls d = true) (hdw : d.isWhitespace = false) :
    ∃ cap, scanFor m cls (pre ++ m ++ (ws ++ d :: rest)) = some cap := by
  subst hm
  induction pre with
  | nil =>
    exact ⟨d :: rest.takeWhile cls, by
      simpa using scanFor_front m0 mt cls ws d rest hws hd hdw⟩
  | cons p pt ih =>
    obtain ⟨cap, hcap⟩ := ih
    cases ht : tryAt (m0 :: mt) cls
        (p :: (pt ++ (m0 :: mt) ++ (ws ++ d :: rest))) with
    | some cap2 =>
      refine ⟨cap2, ?_⟩
      rw [List.cons_append, List.cons_append, scanFor_cons, ht]
    | none =>
      refine ⟨cap, ?_⟩
      rw [List.cons_append, List.cons_append, scanFor_cons, ht]
      exact hcap

/-! ## `foldl`-push loops and `filterMap` -/

theorem foldl_push_eq_filterMap {α β : Type} (f : α → Option β) (l : List α)
    (acc : List β) :
    l.foldl (fun a c => pushSource a (f c)) acc = acc ++ l.filterMap f := by
  induction l generalizing acc with
  | nil => simp
  | cons c t ih =>
    rw [List.foldl_cons]
    cases hf : f c with
    | some s =>
      rw [show pushSource acc (some s) = acc ++ [s] from rfl, ih,
        List.filterMap_cons]
      simp [hf, List.append_assoc]
    | none =>
      rw [show pushSource acc none = acc from rfl, ih, List.filterMap_cons, hf]

theorem extractMapSources_eq (chunks : List Chunk) :
    extractMapSources chunks = chunks.filterMap chunkToMapSource := by
  unfold extractMapSources
  simpa using foldl_push_eq_filterMap chunkToMapSource chunks []

theorem extractWebSources_eq (chunks : List Chunk) :
    extractWebSources chunks = chunks.filterMap chunkToWebSource := by
  unfold extractWebSources
  simpa using foldl_push_eq_filterMap chunkToWebSource chunks []

/-! ## History helper -/

theorem runHistory_aux_length (items : List HistoryItem) :
    ∀ h : List HistoryItem, h.length ≤ 10 →
      (items.foldl (fun acc i => addToHistory i acc) h).length ≤ 10 := by
  induction items with
  | nil => intro h hh; simpa using hh
  | cons i t ih =>
    intro h _
    simp only [List.foldl_cons]
    exact ih _ (by simp [addToHistory])

/-! ## Outcome lemmas for `parseFullChars` -/

theorem parseFullChars_default_not_includes {l : List Char}
    (h : includesSeq scoreMarker (charTrim ((splitNl l).headD [])) = false) :
    parseFullChars l = ((0, lowLabel), l) := by
  unfold parseFullChars
  simp only [List.headD_eq_head?_getD] at h
  simp [h]

theorem parseFullChars_default_score_none {l : List Char}
    (h : scanFor scoreMarker Char.isDigit (charTrim ((splitNl l).headD [])) = none) :
    parseFullChars l = ((0, lowLabel), l) := by
  unfold parseFullChars
  simp only [List.headD_eq_head?_getD] at h
  simp [h]

theorem parseFullChars_default_label_none {l : List Char}
    (h : scanFor labelMarker isWordChar (charTrim ((splitNl l).headD [])) = none) :
    parseFullChars l = ((0, lowLabel), l) := by
  unfold parseFullChars
  simp only [List.headD_eq_head?_getD] at h
  simp [h]

theorem parseFullChars_commit {l ds lab : List Char}
    (hs : scanFor scoreMarker Char.isDigit (charTrim ((splitNl l).headD [])) = some ds)
    (hl : scanFor labelMarker isWordChar (charTrim ((splitNl l).headD [])) = some lab) :
    parseFullChars l = ((digitsToNat ds, lab), charTrim (joinNl ((splitNl l).drop 1))) := by
  have hinc := (scanFor_some_props hs).2.2
  unfold parseFullChars
  simp only [List.headD_eq_head?_getD] at hinc hs hl
  simp [hinc, hs, hl]

/-! ## Miscellaneous list helpers -/

theorem getLast?_append_right {α : Type} {l t : List α} (h : t ≠ []) :
    (l ++ t).getLast? = t.getLast? := by
  rw [List.getLast?_append]
  cases ht : t.getLast? with
  | some a => rfl
  | none => exact absurd (List.getLast?_eq_none_iff.mp ht) h

theorem mem_of_getLast?_eq {α : Type} {l : List α} {a : α}
    (h : l.getLast? = some a) : a ∈ l := by
  rcases @List.mem_getLast?_eq_getLast α l a
      (by rw [h]; exact Option.mem_some_iff.mpr rfl) with ⟨hne, rfl⟩
  exact List.getLast_mem hne

/-! ## Claim theorems -/

/-- C8: every failure inside the symptom-analysis request is caught and
rethrown as the single fixed generic message (check connectivity or try a
different image); `analyzeSymptoms` never surfaces any other error
message. -/
theorem c8_analysis_failure_single_message :
    (∀ language e : String, analyzeSymptoms language (.error e) = .error analyzeErrMsg) ∧
    (∀ (language : String) (o : Except String ModelResponse),
      (∃ r, analyzeSymptoms language o = .ok r) ∨
        analyzeSymptoms language o = .error analyzeErrMsg) := by
  constructor
  · intro language e
    rfl
  · intro language o
    cases o with
    | error e => exact Or.inr rfl
    | ok r => exact Or.inl ⟨_, rfl⟩

/-- C9: when the model response carries no text (absent, or equal to the
empty string), `analyzeSymptoms` substitutes the fixed fallback message as
the raw text before parsing, so the returned content is that message and
the confidence is the default score 0 / label "Low". -/
theorem c9_empty_text_fallback :
    ∀ (language : String) (chunks : List Chunk),
      analyzeSymptoms language (.ok ⟨none, chunks⟩) =
        .ok ⟨analysisFallbackText, ⟨0, "Low"⟩, language, extractWebSources chunks⟩ ∧
      analyzeSymptoms language (.ok ⟨some "", chunks⟩) =
        .ok ⟨analysisFallbackText, ⟨0, "Low"⟩, language, extractWebSources chunks⟩ := by
  intro language chunks
  exact ⟨rfl, rfl⟩

/-- C7 counterexample: when geolocation is unsupported, `handleFindDoctors`
shows "Geolocation is not supported by your browser" — a user-facing
error message of the doctor-lookup flow that is none of the four claimed
messages (permission denied, position unavailable, timed out, or a
generic locate failure in either of its two wordings). -/
theorem c7_unsupported_fifth_message :
    handleFindDoctors .unsupported =
      some "Geolocation is not supported by your browser" ∧
    "Geolocation is not supported by your browser" ∉
      (["Location permission denied. Please allow access.",
        "Location unavailable. Please check your connection.",
        "Location request timed out.",
        "Unable to retrieve your location.",
        "Failed to locate nearby doctors. Please ensure location services are enabled."] :
        List String) := by
  exact ⟨rfl, by decide⟩

/-- C7 amended: every failure of the doctor-lookup flow yields exactly one
of six fixed strings in five categories — geolocation-unsupported,
permission denied, position unavailable, timed out, the error-callback
default, or the service's generic locate-failure message; codes 1/2/3 map
to the three specific messages, any model-request failure maps to the
generic locate-failure message, and success yields no error. -/
theorem c7_doctor_flow_messages :
    (∀ ev : DoctorFlowEvent,
      handleFindDoctors ev = none ∨
      ∃ m, handleFindDoctors ev = some m ∧
        m ∈ ["Geolocation is not supported by your browser",
             "Location permission denied. Please allow access.",
             "Location unavailable. Please check your connection.",
             "Location request timed out.",
             "Unable to retrieve your location.",
             doctorsErrMsg]) ∧
    handleFindDoctors (.geoError 1) =
      some "Location permission denied. Please allow access." ∧
    handleFindDoctors (.geoError 2) =
      some "Location unavailable. Please check your connection." ∧
    handleFindDoctors (.geoError 3) =
      some "Location request timed out." ∧
    (∀ e : String, handleFindDoctors (.positioned (.error e)) = some doctorsErrMsg) ∧
    (∀ resp : ModelResponse, handleFindDoctors (.positioned (.ok resp)) = none) := by
  refine ⟨?_, rfl, rfl, rfl, fun e => rfl, fun resp => rfl⟩
  intro ev
  cases ev with
  | unsupported => exact Or.inr ⟨_, rfl, by simp⟩
  | geoError c =>
    refine Or.inr ⟨geoErrorMessage c, rfl, ?_⟩
    unfold geoErrorMessage
    split_ifs <;> simp
  | positioned o =>
    cases o with
    | error e => exact Or.inr ⟨doctorsErrMsg, rfl, by simp⟩
    | ok r => exact Or.inl rfl

/-- C3: the history list never exceeds 10 entries; after 11 sequential
successful analyses from an empty history the list holds exactly the 10
most recent items newest-first, so the oldest item (when distinct from
the others, as with generated unique ids) is absent and the most recent
item is first. -/
theorem c3_history_capped :
    (∀ items : List HistoryItem, (runHistory items).length ≤ 10) ∧
    (∀ a1 a2 a3 a4 a5 a6 a7 a8 a9 a10 a11 : HistoryItem,
      runHistory [a1, a2, a3, a4, a5, a6, a7, a8, a9, a10, a11] =
        [a11, a10, a9, a8, a7, a6, a5, a4, a3, a2] ∧
      (a1 ∉ [a2, a3, a4, a5, a6, a7, a8, a9, a10, a11] →
        a1 ∉ runHistory [a1, a2, a3, a4, a5, a6, a7, a8, a9, a10, a11]) ∧
      (runHistory [a1, a2, a3, a4, a5, a6, a7, a8, a9, a10, a11]).head? = some a11) := by
  constructor
  · intro items
    exact runHistory_aux_length items [] (by simp)
  · intro a1 a2 a3 a4 a5 a6 a7 a8 a9 a10 a11
    refine ⟨rfl, ?_, rfl⟩
    intro hnot hmem
    rw [show runHistory [a1, a2, a3, a4, a5, a6, a7, a8, a9, a10, a11] =
      [a11, a10, a9, a8, a7, a6, a5, a4, a3, a2] from rfl] at hmem
    simp only [List.mem_cons, List.not_mem_nil, or_false] at hmem hnot
    tauto

/-- Fixed sample analysis result used by concrete history witnesses. -/
def sampleResult : AnalysisResult := ⟨"r", ⟨0, "Low"⟩, "English", []⟩

/-- Concrete distinct history items (distinct ids), as produced by
successive analyses. -/
def sampleItem (n : Nat) : HistoryItem := ⟨toString n, "s", n, sampleResult⟩

theorem c3_history_capped_witness :
    sampleItem 1 ∉ [sampleItem 2, sampleItem 3, sampleItem 4, sampleItem 5,
      sampleItem 6, sampleItem 7, sampleItem 8, sampleItem 9, sampleItem 10,
      sampleItem 11] ∧
    runHistory [sampleItem 1, sampleItem 2, sampleItem 3, sampleItem 4,
        sampleItem 5, sampleItem 6, sampleItem 7, sampleItem 8, sampleItem 9,
        sampleItem 10, sampleItem 11] =
      [sampleItem 11, sampleItem 10, sampleItem 9, sampleItem 8, sampleItem 7,
        sampleItem 6, sampleItem 5, sampleItem 4, sampleItem 3, sampleItem 2] ∧
    sampleItem 1 ∉ runHistory [sampleItem 1, sampleItem 2, sampleItem 3,
      sampleItem 4, sampleItem 5, sampleItem 6, sampleItem 7, sampleItem 8,
      sampleItem 9, sampleItem 10, sampleItem 11] :=
  ⟨by decide,
    (c3_history_capped.2 (sampleItem 1) (sampleItem 2) (sampleItem 3)
      (sampleItem 4) (sampleItem 5) (sampleItem 6) (sampleItem 7) (sampleItem 8)
      (sampleItem 9) (sampleItem 10) (sampleItem 11)).1,
    (c3_history_capped.2 (sampleItem 1) (sampleItem 2) (sampleItem 3)
      (sampleItem 4) (sampleItem 5) (sampleItem 6) (sampleItem 7) (sampleItem 8)
      (sampleItem 9) (sampleItem 10) (sampleItem 11)).2.1 (by decide)⟩


/-! ## Chunk-extraction support lemmas -/

theorem truthyStr_eq {o : Option String} (h : truthyStr o = true) :
    o.getD "" ≠ "" ∧ o = some (o.getD "") := by
  cases o with
  | none => cases h
  | some s =>
    refine ⟨?_, rfl⟩
    simp only [truthyStr, Bool.not_eq_eq_eq_not, Bool.not_true, beq_eq_false_iff_ne] at h
    simpa using h

theorem webFallback_some {c : Chunk} {s : MapSource}
    (h : webFallback c = some s) :
    s.title ≠ "" ∧ s.uri ≠ "" ∧ s.address = none := by
  unfold webFallback at h
  cases hw : c.web with
  | none => rw [hw] at h; cases h
  | some w =>
    rw [hw] at h
    have h2 : (if (truthyStr w.uri && truthyStr w.title) = true then
        some (⟨w.title.getD "", w.uri.getD "", none⟩ : MapSource) else none) = some s := h
    by_cases ht : (truthyStr w.uri && truthyStr w.title) = true
    · rw [if_pos ht] at h2
      injection h2 with h2
      subst h2
      simp only [Bool.and_eq_true] at ht
      exact ⟨(truthyStr_eq ht.2).1, (truthyStr_eq ht.1).1, rfl⟩
    · rw [if_neg ht] at h2; cases h2

theorem chunkToMapSource_some {c : Chunk} {s : MapSource}
    (h : chunkToMapSource c = some s) :
    s.title ≠ "" ∧ s.uri ≠ "" ∧
      ((∃ m, c.maps = some m ∧ m.title = some s.title ∧ m.uri = some s.uri ∧
          s.address = m.address) ∨ s.address = none) := by
  unfold chunkToMapSource at h
  cases hm : c.maps with
  | none =>
    rw [hm] at h
    obtain ⟨h1, h2, h3⟩ := webFallback_some h
    exact ⟨h1, h2, Or.inr h3⟩
  | some m =>
    rw [hm] at h
    have h2 : (if (truthyStr m.uri && truthyStr m.title) = true then
        some (⟨m.title.getD "", m.uri.getD "", m.address⟩ : MapSource) else
        webFallback c) = some s := h
    by_cases ht : (truthyStr m.uri && truthyStr m.title) = true
    · rw [if_pos ht] at h2
      injection h2 with h2
      subst h2
      simp only [Bool.and_eq_true] at ht
      refine ⟨(truthyStr_eq ht.2).1, (truthyStr_eq ht.1).1,
        Or.inl ⟨m, rfl, (truthyStr_eq ht.2).2, (truthyStr_eq ht.1).2, rfl⟩⟩
    · rw [if_neg ht] at h2
      obtain ⟨hx1, hx2, hx3⟩ := webFallback_some h2
      exact ⟨hx1, hx2, Or.inr hx3⟩

theorem chunkToWebSource_some {c : Chunk} {g : GroundingSource}
    (h : chunkToWebSource c = some g) :
    g.title ≠ "" ∧ g.uri ≠ "" := by
  unfold chunkToWebSource at h
  cases hw : c.web with
  | none => rw [hw] at h; cases h
  | some w =>
    rw [hw] at h
    have h2 : (if (truthyStr w.uri && truthyStr w.title) = true then
        some (⟨w.title.getD "", w.uri.getD ""⟩ : GroundingSource) else none) = some g := h
    by_cases ht : (truthyStr w.uri && truthyStr w.title) = true
    · rw [if_pos ht] at h2
      injection h2 with h2
      subst h2
      simp only [Bool.and_eq_true] at ht
      exact ⟨(truthyStr_eq ht.2).1, (truthyStr_eq ht.1).1⟩
    · rw [if_neg ht] at h2; cases h2

/-- C5: citation extraction never emits an entry missing (empty or absent)
a title or a URI; the doctor-lookup extraction equals an in-order
`filterMap` of the chunks (so output order is input order) and is a
homomorphism on append (so duplicates are never removed); a `maps`
sub-object with truthy title and URI yields a `MapSource` carrying the
maps `address` field as-is, and any emitted entry either takes all its
fields from a `maps` sub-object or carries no address (web fallback). -/
theorem c5_citation_extraction :
    (∀ chunks : List Chunk,
      extractMapSources chunks = chunks.filterMap chunkToMapSource) ∧
    (∀ l1 l2 : List Chunk,
      extractMapSources (l1 ++ l2) = extractMapSources l1 ++ extractMapSources l2) ∧
    (∀ (chunks : List Chunk) (s : MapSource),
      s ∈ extractMapSources chunks → s.title ≠ "" ∧ s.uri ≠ "") ∧
    (∀ (w : Option WebInfo) (t u : String) (a : Option String),
      t ≠ "" → u ≠ "" →
      chunkToMapSource ⟨some ⟨some t, some u, a⟩, w⟩ = some ⟨t, u, a⟩) ∧
    (∀ (c : Chunk) (s : MapSource), chunkToMapSource c = some s →
      (∃ m, c.maps = some m ∧ m.title = some s.title ∧ m.uri = some s.uri ∧
          s.address = m.address) ∨ s.address = none) ∧
    (∀ (chunks : List Chunk) (g : GroundingSource),
      g ∈ extractWebSources chunks → g.title ≠ "" ∧ g.uri ≠ "") := by
  refine ⟨extractMapSources_eq, ?_, ?_, ?_, ?_, ?_⟩
  · intro l1 l2
    rw [extractMapSources_eq, extractMapSources_eq, extractMapSources_eq,
      List.filterMap_append]
  · intro chunks s hs
    rw [extractMapSources_eq] at hs
    obtain ⟨c, _, hc⟩ := List.mem_filterMap.mp hs
    exact ⟨(chunkToMapSource_some hc).1, (chunkToMapSource_some hc).2.1⟩
  · intro w t u a ht hu
    unfold chunkToMapSource
    simp [truthyStr, ht, hu]
  · intro c s hc
    exact (chunkToMapSource_some hc).2.2
  · intro chunks g hg
    rw [extractWebSources_eq] at hg
    obtain ⟨c, _, hc⟩ := List.mem_filterMap.mp hg
    exact chunkToWebSource_some hc

theorem c5_citation_extraction_witness :
    chunkToMapSource ⟨some ⟨some "City Clinic", some "maps:1", some "1 Main St"⟩, none⟩ =
      some ⟨"City Clinic", "maps:1", some "1 Main St"⟩ ∧
    (("City Clinic" : String) ≠ "" ∧ ("maps:1" : String) ≠ "") ∧
    ((∃ m, (⟨some ⟨some "City Clinic", some "maps:1", some "1 Main St"⟩, none⟩ : Chunk).maps =
          some m ∧ m.title = some "City Clinic" ∧ m.uri = some "maps:1" ∧
          (some "1 Main St" : Option String) = m.address) ∨
      (some "1 Main St" : Option String) = none) :=
  ⟨c5_citation_extraction.2.2.2.1 none "City Clinic" "maps:1" (some "1 Main St")
      (by decide) (by decide),
    c5_citation_extraction.2.2.1 [⟨some ⟨some "City Clinic", some "maps:1", some "1 Main St"⟩, none⟩]
      ⟨"City Clinic", "maps:1", some "1 Main St"⟩ (by decide),
    c5_citation_extraction.2.2.2.2.1 ⟨some ⟨some "City Clinic", some "maps:1", some "1 Main St"⟩, none⟩
      ⟨"City Clinic", "maps:1", some "1 Main St"⟩
      (c5_citation_extraction.2.2.2.1 none "City Clinic" "maps:1" (some "1 Main St")
        (by decide) (by decide))⟩

/-- C6: confidence parsing inspects only the first line — whenever the
first line of the raw text lacks the substring `CONFIDENCE_SCORE:`
(untrimmed, hence also trimmed), the confidence is the default
score 0 / label "Low" and the content is the full text with nothing
stripped, no matter what later lines contain. -/
theorem c6_only_first_line_inspected (l : List Char)
    (h : includesSeq scoreMarker ((splitNl l).headD []) = false) :
    parseFullChars l = ((0, lowLabel), l) := by
  have h2 : includesSeq scoreMarker (charTrim ((splitNl l).headD [])) = false := by
    cases hct : includesSeq scoreMarker (charTrim ((splitNl l).headD [])) with
    | false => rfl
    | true => rw [includesSeq_of_trim hct] at h; cases h
  exact parseFullChars_default_not_includes h2

/-- A raw text whose first line has no marker while the second line is a
perfectly well-formed confidence line. -/
def lateMarkerInput : String := "hello\nCONFIDENCE_SCORE: 85 | CONFIDENCE_LABEL: High"

theorem c6_only_first_line_inspected_witness :
    includesSeq scoreMarker ((splitNl lateMarkerInput.data).headD []) = false ∧
    includesSeq scoreMarker "CONFIDENCE_SCORE: 85 | CONFIDENCE_LABEL: High".data = true ∧
    parseFullChars lateMarkerInput.data = ((0, lowLabel), lateMarkerInput.data) :=
  ⟨by decide, by decide, c6_only_first_line_inspected lateMarkerInput.data (by decide)⟩

/-- C2 counterexample: the first line of this input is not an exact match
of the pattern `CONFIDENCE_SCORE: <int> | CONFIDENCE_LABEL: <word>` (it
starts with an extra `"x "`), yet the parse commits score 85 / label
"High" and strips the line — so non-matching inputs do not all fall back
to the default. -/
def lenientInput : String := "x CONFIDENCE_SCORE: 85 | CONFIDENCE_LABEL: High\nbody"

theorem c2_exact_match_counterexample :
    (¬ ∃ ds w : List Char,
        (splitNl lenientInput.data).headD [] =
          "CONFIDENCE_SCORE: ".data ++ ds ++ " | CONFIDENCE_LABEL: ".data ++ w) ∧
    parseResponseText lenientInput = (⟨85, "High"⟩, "body") ∧
    parseResponseText lenientInput ≠ (⟨0, "Low"⟩, lenientInput) := by
  refine ⟨?_, by decide, by decide⟩
  rintro ⟨ds, w, h⟩
  have h2 : ('x' : Char) = 'C' := congrArg (fun l => List.headD l ' ') h
  exact absurd h2 (by decide)

/-- C2 amended: for every raw text reaching the parser whose trimmed first
line lacks the substring `CONFIDENCE_SCORE:`, or contains it but the
digit extraction or the word extraction fails, the confidence is exactly
score 0 / label "Low" and the content is the full text unmodified. -/
theorem c2_default_when_unparsed (l : List Char)
    (h : includesSeq scoreMarker (charTrim ((splitNl l).headD [])) = false ∨
         scanFor scoreMarker Char.isDigit (charTrim ((splitNl l).headD [])) = none ∨
         scanFor labelMarker isWordChar (charTrim ((splitNl l).headD [])) = none) :
    parseFullChars l = ((0, lowLabel), l) := by
  rcases h with h | h | h
  · exact parseFullChars_default_not_includes h
  · exact parseFullChars_default_score_none h
  · exact parseFullChars_default_label_none h

/-- An input with no marker at all, as in the spec example. -/
def noMarkerInput : String := "No marker here at all"

theorem c2_default_when_unparsed_witness :
    includesSeq scoreMarker (charTrim ((splitNl noMarkerInput.data).headD [])) = false ∧
    parseFullChars noMarkerInput.data = ((0, lowLabel), noMarkerInput.data) :=
  ⟨by decide, c2_default_when_unparsed noMarkerInput.data (Or.inl (by decide))⟩

/-- C4 counterexample: a first line carrying score 999 and label "Banana"
is committed verbatim — the score is not clamped to 0–100 and the label
is not restricted to High/Medium/Low. -/
def outOfRangeInput : String := "CONFIDENCE_SCORE: 999 | CONFIDENCE_LABEL: Banana\nbody"

theorem c4_out_of_range_counterexample :
    (parseResponseText outOfRangeInput).1.score = 999 ∧
    ¬ (parseResponseText outOfRangeInput).1.score ≤ 100 ∧
    (parseResponseText outOfRangeInput).1.label = "Banana" ∧
    (parseResponseText outOfRangeInput).1.label ∉
      (["High", "Medium", "Low"] : List String) := by
  decide

/-- C4 amended: every confidence produced by the parsing is either exactly
the default (score 0, label "Low") or carries a nonempty label made of
word characters, with a nonnegative integer score; neither a 0–100 bound
on the score nor membership of the label in High/Medium/Low is
enforced. -/
theorem c4_confidence_shape :
    ∀ s : String,
      (parseResponseText s).1 = ⟨0, "Low"⟩ ∨
      ((parseResponseText s).1.label ≠ "" ∧
        ∀ c ∈ (parseResponseText s).1.label.data, isWordChar c = true) := by
  intro s
  cases hs : scanFor scoreMarker Char.isDigit (charTrim ((splitNl s.data).headD [])) with
  | none =>
    left
    unfold parseResponseText
    rw [parseFullChars_default_score_none hs]
    rfl
  | some ds =>
    cases hl : scanFor labelMarker isWordChar (charTrim ((splitNl s.data).headD [])) with
    | none =>
      left
      unfold parseResponseText
      rw [parseFullChars_default_label_none hl]
      rfl
    | some lab =>
      right
      unfold parseResponseText
      rw [parseFullChars_commit hs hl]
      constructor
      · intro hemp
        have hdata : lab = [] := congrArg String.data hemp
        exact (scanFor_some_props hl).1 hdata
      · intro c hc
        exact (scanFor_some_props hl).2.1 c hc



/-! ## The exactly-formatted confidence line -/

theorem parse_line_core (ds w : List Char)
    (hds : ds ≠ []) (hdig : ∀ c ∈ ds, c.isDigit = true)
    (hw : w ≠ []) (hword : ∀ c ∈ w, isWordChar c = true) :
    includesSeq scoreMarker
        ("CONFIDENCE_SCORE: ".data ++ (ds ++ (" | CONFIDENCE_LABEL: ".data ++ w))) = true ∧
    scanFor scoreMarker Char.isDigit
        ("CONFIDENCE_SCORE: ".data ++ (ds ++ (" | CONFIDENCE_LABEL: ".data ++ w))) = some ds ∧
    scanFor labelMarker isWordChar
        ("CONFIDENCE_SCORE: ".data ++ (ds ++ (" | CONFIDENCE_LABEL: ".data ++ w))) = some w := by
  obtain ⟨d0, dt, rfl⟩ : ∃ d0 dt, ds = d0 :: dt := by
    cases ds with
    | nil => exact absurd rfl hds
    | cons d0 dt => exact ⟨d0, dt, rfl⟩
  obtain ⟨w0, wt, rfl⟩ : ∃ w0 wt, w = w0 :: wt := by
    cases w with
    | nil => exact absurd rfl hw
    | cons w0 wt => exact ⟨w0, wt, rfl⟩
  refine ⟨rfl, ?_, ?_⟩
  · have hfront := scanFor_front 'C' "ONFIDENCE_SCORE:".data Char.isDigit
      [' '] d0 (dt ++ (" | CONFIDENCE_LABEL: ".data ++ (w0 :: wt)))
      (by decide) (hdig d0 (by simp)) (digit_not_ws (hdig d0 (by simp)))
    have htake : (dt ++ (" | CONFIDENCE_LABEL: ".data ++ (w0 :: wt))).takeWhile
        Char.isDigit = dt := by
      rw [List.takeWhile_append_of_pos (fun c hc => hdig c (by simp [hc]))]
      rw [show (" | CONFIDENCE_LABEL: ".data ++ (w0 :: wt)).takeWhile Char.isDigit
        = [] from rfl]
      simp
    rw [htake] at hfront
    exact hfront
  · have hstep2 : scanFor labelMarker isWordChar
        ((d0 :: dt) ++ (" | CONFIDENCE_LABEL: ".data ++ (w0 :: wt))) =
        scanFor labelMarker isWordChar (" | CONFIDENCE_LABEL: ".data ++ (w0 :: wt)) :=
      scanFor_skip_all 'C' "ONFIDENCE_LABEL:".data isWordChar (d0 :: dt)
        (" | CONFIDENCE_LABEL: ".data ++ (w0 :: wt))
        (fun c hc => beq_false_of_isDigit (by decide) (hdig c hc))
    have hfront := scanFor_front 'C' "ONFIDENCE_LABEL:".data isWordChar
      [' '] w0 wt (by decide)
      (hword w0 (by simp)) (wordChar_not_ws (hword w0 (by simp)))
    have htake : wt.takeWhile isWordChar = wt :=
      List.takeWhile_eq_self_iff.mpr (fun c hc => hword c (by simp [hc]))
    rw [htake] at hfront
    have hstep1 : scanFor labelMarker isWordChar
        ("CONFIDENCE_SCORE: ".data ++
          ((d0 :: dt) ++ (" | CONFIDENCE_LABEL: ".data ++ (w0 :: wt)))) =
        scanFor labelMarker isWordChar
          ((d0 :: dt) ++ (" | CONFIDENCE_LABEL: ".data ++ (w0 :: wt))) := rfl
    exact hstep1.trans (hstep2.trans hfront)

/-- A round-trip helper: `parseResponseText` in terms of `parseFullChars`. -/
theorem parseResponseText_eq (s : String) :
    parseResponseText s =
      (⟨(parseFullChars s.data).1.1, String.mk (parseFullChars s.data).1.2⟩,
        String.mk (parseFullChars s.data).2) := rfl

/-- C1: for every raw response whose first line is exactly
`CONFIDENCE_SCORE: <digits> | CONFIDENCE_LABEL: <word>`, the parsed score
is the literal integer (the decimal value of the digits), the label is
the literal word, and the displayed body is the remaining lines (trimmed)
with that first line removed. -/
theorem c1_exact_confidence_line (ds w rest : List Char)
    (hds : ds ≠ []) (hdig : ∀ c ∈ ds, c.isDigit = true)
    (hw : w ≠ []) (hword : ∀ c ∈ w, isWordChar c = true) :
    parseResponseText (String.mk
        ("CONFIDENCE_SCORE: ".data ++ ds ++ " | CONFIDENCE_LABEL: ".data ++ w ++
          '\n' :: rest)) =
      (⟨digitsToNat ds, String.mk w⟩, String.mk (charTrim rest)) := by
  have hAnl : ∀ c ∈ ("CONFIDENCE_SCORE: ".data ++ ds ++
      " | CONFIDENCE_LABEL: ".data ++ w), c ≠ '\n' := by
    intro c hc
    simp only [List.mem_append] at hc
    rcases hc with ((hc | hc) | hc) | hc
    · exact (by decide : ∀ c ∈ "CONFIDENCE_SCORE: ".data, c ≠ '\n') c hc
    · exact digit_ne_nl (hdig c hc)
    · exact (by decide : ∀ c ∈ " | CONFIDENCE_LABEL: ".data, c ≠ '\n') c hc
    · exact wordChar_ne_nl (hword c hc)
  have hsplit : splitNl (("CONFIDENCE_SCORE: ".data ++ ds ++
      " | CONFIDENCE_LABEL: ".data ++ w) ++ '\n' :: rest) =
      ("CONFIDENCE_SCORE: ".data ++ ds ++ " | CONFIDENCE_LABEL: ".data ++ w) ::
        splitNl rest :=
    splitNl_append_nl rest hAnl
  have hhead : ∀ a, ("CONFIDENCE_SCORE: ".data ++ ds ++
      " | CONFIDENCE_LABEL: ".data ++ w).head? = some a → a.isWhitespace = false := by
    intro a ha
    rw [show ("CONFIDENCE_SCORE: ".data ++ ds ++
      " | CONFIDENCE_LABEL: ".data ++ w).head? = some 'C' from rfl] at ha
    injection ha with ha
    rw [← ha]
    decide
  have hlastw : ∀ a, ("CONFIDENCE_SCORE: ".data ++ ds ++
      " | CONFIDENCE_LABEL: ".data ++ w).getLast? = some a → a.isWhitespace = false := by
    intro a ha
    rw [getLast?_append_right hw] at ha
    exact wordChar_not_ws (hword a (mem_of_getLast?_eq ha))
  have htrim : charTrim ("CONFIDENCE_SCORE: ".data ++ ds ++
      " | CONFIDENCE_LABEL: ".data ++ w) =
      ("CONFIDENCE_SCORE: ".data ++ ds ++ " | CONFIDENCE_LABEL: ".data ++ w) :=
    charTrim_eq_self hhead hlastw
  have hassoc : ("CONFIDENCE_SCORE: ".data ++ ds ++
      " | CONFIDENCE_LABEL: ".data ++ w) =
      "CONFIDENCE_SCORE: ".data ++ (ds ++ (" | CONFIDENCE_LABEL: ".data ++ w)) := by
    simp [List.append_assoc]
  obtain ⟨hinc, hsc, hlb⟩ := parse_line_core ds w hds hdig hw hword
  rw [← hassoc] at hinc hsc hlb
  have hfl : charTrim ((splitNl (("CONFIDENCE_SCORE: ".data ++ ds ++
      " | CONFIDENCE_LABEL: ".data ++ w) ++ '\n' :: rest)).headD []) =
      ("CONFIDENCE_SCORE: ".data ++ ds ++ " | CONFIDENCE_LABEL: ".data ++ w) := by
    rw [hsplit]
    simpa using htrim
  have hs2 : scanFor scoreMarker Char.isDigit
      (charTrim ((splitNl (("CONFIDENCE_SCORE: ".data ++ ds ++
        " | CONFIDENCE_LABEL: ".data ++ w) ++ '\n' :: rest)).headD [])) = some ds := by
    rw [hfl]
    exact hsc
  have hl2 : scanFor labelMarker isWordChar
      (charTrim ((splitNl (("CONFIDENCE_SCORE: ".data ++ ds ++
        " | CONFIDENCE_LABEL: ".data ++ w) ++ '\n' :: rest)).headD [])) = some w := by
    rw [hfl]
    exact hlb
  have hcommit := parseFullChars_commit hs2 hl2
  have hcont : joinNl ((splitNl (("CONFIDENCE_SCORE: ".data ++ ds ++
      " | CONFIDENCE_LABEL: ".data ++ w) ++ '\n' :: rest)).drop 1) = rest := by
    rw [hsplit]
    simpa using joinNl_splitNl rest
  rw [parseResponseText_eq]
  rw [show (String.mk (("CONFIDENCE_SCORE: ".data ++ ds ++
      " | CONFIDENCE_LABEL: ".data ++ w) ++ '\n' :: rest)).data =
      (("CONFIDENCE_SCORE: ".data ++ ds ++
        " | CONFIDENCE_LABEL: ".data ++ w) ++ '\n' :: rest) from rfl]
  rw [hcommit, hcont]

theorem c1_exact_confidence_line_witness :
    parseResponseText (String.mk
        ("CONFIDENCE_SCORE: ".data ++ "85".data ++ " | CONFIDENCE_LABEL: ".data ++
          "High".data ++ '\n' :: "**Summary**: ...".data)) =
      (⟨digitsToNat "85".data, String.mk "High".data⟩,
        String.mk (charTrim "**Summary**: ...".data)) ∧
    digitsToNat "85".data = 85 ∧
    String.mk "High".data = "High" ∧
    String.mk (charTrim "**Summary**: ...".data) = "**Summary**: ..." :=
  ⟨c1_exact_confidence_line "85".data "High".data "**Summary**: ...".data
      (by decide) (by decide) (by decide) (by decide),
    by decide, rfl, by decide⟩

/-- C10 counterexample: the first line contains `CONFIDENCE_SCORE:`
followed later in the line by digits (`12`, separated by `" x "`), and
`CONFIDENCE_LABEL:` followed by a word — yet nothing is committed and
nothing is stripped, because the digits are not adjacent (up to
whitespace) to the score marker. -/
def nonAdjacentInput : String := "CONFIDENCE_SCORE: x 12 | CONFIDENCE_LABEL: High\nbody"

theorem c10_nonadjacent_counterexample :
    (∃ pre mid ds suf : List Char, ds ≠ [] ∧ (∀ c ∈ ds, c.isDigit = true) ∧
      charTrim ((splitNl nonAdjacentInput.data).headD []) =
        pre ++ (scoreMarker ++ (mid ++ (ds ++ suf)))) ∧
    (∃ pre2 ws2 wrd suf2 : List Char, wrd ≠ [] ∧ (∀ c ∈ wrd, isWordChar c = true) ∧
      (∀ c ∈ ws2, c.isWhitespace = true) ∧
      charTrim ((splitNl nonAdjacentInput.data).headD []) =
        pre2 ++ (labelMarker ++ (ws2 ++ (wrd ++ suf2)))) ∧
    parseResponseText nonAdjacentInput = (⟨0, "Low"⟩, nonAdjacentInput) :=
  ⟨⟨[], " x ".data, "12".data, " | CONFIDENCE_LABEL: High".data,
      by decide, by decide, by decide⟩,
    ⟨"CONFIDENCE_SCORE: x 12 | ".data, [' '], "High".data, [],
      by decide, by decide, by decide, by decide⟩,
    by decide⟩

/-- C10 amended: whenever the trimmed first line contains
`CONFIDENCE_SCORE:` followed — after optional whitespace, immediately —
by digits, and `CONFIDENCE_LABEL:` followed (after optional whitespace)
by a word, a score and a nonempty label are committed and the entire
first line is removed, the remaining body being trimmed of leading and
trailing whitespace; exact-pattern matching is not required. -/
theorem c10_lenient_commit (l pre1 ws1 ds suf1 pre2 ws2 wrd suf2 : List Char)
    (h1 : charTrim ((splitNl l).headD []) =
      pre1 ++ (scoreMarker ++ (ws1 ++ (ds ++ suf1))))
    (h2 : charTrim ((splitNl l).headD []) =
      pre2 ++ (labelMarker ++ (ws2 ++ (wrd ++ suf2))))
    (hws1 : ∀ c ∈ ws1, c.isWhitespace = true)
    (hds : ds ≠ []) (hdig : ∀ c ∈ ds, c.isDigit = true)
    (hws2 : ∀ c ∈ ws2, c.isWhitespace = true)
    (hwrd : wrd ≠ []) (hword : ∀ c ∈ wrd, isWordChar c = true) :
    ∃ n lab, lab ≠ [] ∧
      parseFullChars l = ((n, lab), charTrim (joinNl ((splitNl l).drop 1))) := by
  obtain ⟨d0, dt, rfl⟩ : ∃ d0 dt, ds = d0 :: dt := by
    cases ds with
    | nil => exact absurd rfl hds
    | cons d0 dt => exact ⟨d0, dt, rfl⟩
  obtain ⟨w0, wt, rfl⟩ : ∃ w0 wt, wrd = w0 :: wt := by
    cases wrd with
    | nil => exact absurd rfl hwrd
    | cons w0 wt => exact ⟨w0, wt, rfl⟩
  have h1b : charTrim ((splitNl l).headD []) =
      (pre1 ++ scoreMarker) ++ (ws1 ++ d0 :: (dt ++ suf1)) := by
    rw [h1]
    simp [List.append_assoc]
  have h2b : charTrim ((splitNl l).headD []) =
      (pre2 ++ labelMarker) ++ (ws2 ++ w0 :: (wt ++ suf2)) := by
    rw [h2]
    simp [List.append_assoc]
  obtain ⟨cap1, hcap1⟩ := scanFor_isSome_of_decomp scoreMarker 'C'
    "ONFIDENCE_SCORE:".data d0 rfl Char.isDigit pre1 ws1 (dt ++ suf1)
    hws1 (hdig d0 (by simp)) (digit_not_ws (hdig d0 (by simp)))
  obtain ⟨cap2, hcap2⟩ := scanFor_isSome_of_decomp labelMarker 'C'
    "ONFIDENCE_LABEL:".data w0 rfl isWordChar pre2 ws2 (wt ++ suf2)
    hws2 (hword w0 (by simp)) (wordChar_not_ws (hword w0 (by simp)))
  rw [← h1b] at hcap1
  rw [← h2b] at hcap2
  exact ⟨digitsToNat cap1, cap2, (scanFor_some_props hcap2).1,
    parseFullChars_commit hcap1 hcap2⟩

/-- A messy but leniently-parsable raw response: surrounding junk on the
first line, no space after the score colon, two spaces after the label
colon, and a body with surrounding whitespace. -/
def lenientMessyInput : String :=
  "zz CONFIDENCE_SCORE:42 junk CONFIDENCE_LABEL:  High tail\n  body  "

theorem c10_lenient_commit_witness :
    ∃ n lab, lab ≠ [] ∧
      parseFullChars lenientMessyInput.data =
        ((n, lab), charTrim (joinNl ((splitNl lenientMessyInput.data).drop 1))) :=
  c10_lenient_commit lenientMessyInput.data
    "zz ".data [] "42".data " junk CONFIDENCE_LABEL:  High tail".data
    "zz CONFIDENCE_SCORE:42 junk ".data [' ', ' '] "High".data " tail".data
    (by decide) (by decide) (by decide) (by decide) (by decide)
    (by decide) (by decide) (by decide)


end HealthLens
